import Mathlib

/-!
Verification development for the ScanFlow OCR batch pipeline.

The definitions below are a shallow embedding of the core of the repository:
the per-file status state machine and batch orchestrator of `src/App.tsx`
(the Google-Sheets variant) and of the Firestore variant
(`src/unnamed/part_000`, with its persistence service in
`src/unnamed/part_002`), and the drag-to-region geometry of
`src/components/DocumentCanvas.tsx` together with the response handling of
`src/services/geminiService.ts`.

External collaborators (the Gemini extraction call, the Google Sheets
append, the fetch inside the Firestore write) are modelled as oracles: functions
from the file index to an `Except`/`Bool` outcome, standing for the
settled result of the corresponding awaited call.  JavaScript numbers are
modelled as rationals; `Math.abs` and `Math.min` are embedded as
computable `jsAbs`/`jsMin`.
-/

namespace ScanFlow

/-- Lifecycle status of a scanned file (`types.ts`, field `status`). -/
inductive FileStatus
  | pending
  | processing
  | completed
  | error
deriving DecidableEq, Repr

/-- Sheet-sync axis used by `src/App.tsx` (`sheetSyncStatus`); its initial
value there is the literal `pending`. -/
inductive SheetSyncStatus
  | pending
  | syncing
  | synced
  | failed
deriving DecidableEq, Repr

/-- Sync axis of `types.ts` (`SyncStatus`), used by the Firestore variant. -/
inductive SyncStatus
  | unsynced
  | syncing
  | synced
  | failed
deriving DecidableEq, Repr

/-- A named rectangular extraction field (`types.ts`, `Region`).
Coordinates are percentages of the bounding box of the image. -/
structure Region where
  id : String
  name : String
  x : ℚ
  y : ℚ
  width : ℚ
  height : ℚ
deriving DecidableEq, Repr

/-- An extraction result: the mapping from region names to extracted
strings (`types.ts`, `OCRResult` / `Record<string, string>`). -/
abbrev OCRResult := List (String × String)

/-- The keys of an extraction result. -/
def resultKeys (r : OCRResult) : List String := r.map Prod.fst

/-- A queued file as used by `src/App.tsx`: `status`, `sheetSyncStatus`,
optional `extractedData`, and the (never written there) `error` field of
`types.ts`.  The raw file handle and preview URL are omitted: the
pipeline only threads them into the oracles. -/
structure AppFile where
  id : String
  status : FileStatus
  sheetSyncStatus : SheetSyncStatus
  extractedData : Option OCRResult
  error : Option String
deriving DecidableEq, Repr

/-- A queued file as used by the Firestore variant
(`src/unnamed/part_000`): `status`, `syncStatus`, optional
`extractedData` and `error`. -/
structure EntFile where
  id : String
  status : FileStatus
  syncStatus : SyncStatus
  extractedData : Option OCRResult
  error : Option String
deriving DecidableEq, Repr

/-- One observable collaborator invocation performed by a batch run,
tagged with the index of the file it was made for. -/
inductive CallEv
  | extractCall (i : Nat)
  | appendCall (i : Nat)
  | persistCall (i : Nat)
deriving DecidableEq, Repr

/-- The file index a collaborator call was made for. -/
def CallEv.idx : CallEv → Nat
  | .extractCall i => i
  | .appendCall i => i
  | .persistCall i => i

/-- The Google-Sheets configuration state of `src/App.tsx`
(`isSheetEnabled`, `spreadsheetId`, `accessToken`). -/
structure SheetsConfig where
  isSheetEnabled : Bool
  spreadsheetId : String
  accessToken : String
deriving DecidableEq, Repr

/-- Result of one `processAllFiles` invocation: the final queue, the
collaborator calls that were made (in order), and whether the run was
refused with the empty-registry alert. -/
structure RunResult (φ : Type) where
  files : List φ
  calls : List CallEv
  configError : Bool
deriving DecidableEq, Repr

/-- Index-conditional update: models the React state updates of the form
`prev.map((f, idx) => idx === i ? g(f) : f)` used throughout
`processAllFiles`. -/
def updAt {α : Type} : Nat → (α → α) → List α → List α
  | _, _, [] => []
  | 0, g, f :: l => g f :: l
  | i + 1, g, f :: l => f :: updAt i g l

theorem updAt_get_ne {α : Type} {i j : Nat} (g : α → α) {l : List α} (hj : j ≠ i) :
    (updAt i g l)[j]? = l[j]? := by
  induction l generalizing i j with
  | nil => cases i <;> simp [updAt]
  | cons a l ih =>
    cases i with
    | zero =>
      cases j with
      | zero => exact absurd rfl hj
      | succ j => simp [updAt]
    | succ i =>
      cases j with
      | zero => simp [updAt]
      | succ j =>
        have : j ≠ i := fun h => hj (by rw [h])
        simpa [updAt] using ih this

theorem updAt_get_self {α : Type} {i : Nat} (g : α → α) {l : List α} {a : α}
    (h : l[i]? = some a) : (updAt i g l)[i]? = some (g a) := by
  induction l generalizing i with
  | nil => simp at h
  | cons b l ih =>
    cases i with
    | zero =>
      simp only [List.getElem?_cons_zero, Option.some.injEq] at h
      simp [updAt, h]
    | succ i =>
      simp only [List.getElem?_cons_succ] at h
      simpa [updAt] using ih h

/-- The sequential `for` loop of `processAllFiles`, abstracted over the
loop body `f` (which receives the live queue and the current index and
returns the updated queue plus the collaborator calls it made). -/
def loopIdx {α ε : Type} (f : List α → Nat → List α × List ε) :
    List Nat → List α → List α × List ε
  | [], cur => (cur, [])
  | i :: rest, cur =>
    let p := f cur i
    let q := loopIdx f rest p.1
    (q.1, p.2 ++ q.2)

/-- Master lemma for the loop: if every iteration only rewrites its own
index, and on an untouched entry its effect and trace are those given by
`v`/`t`, then the whole loop rewrites exactly the visited indices to `v`
and emits the concatenation of the `t`s. -/
theorem loopIdx_spec {α ε : Type} (f : List α → Nat → List α × List ε) (snap : List α)
    (v : Nat → Option α) (t : Nat → List ε)
    (hframe : ∀ cur i j, j ≠ i → ((f cur i).1)[j]? = cur[j]?)
    (hstep : ∀ cur i, cur[i]? = snap[i]? → ((f cur i).1)[i]? = v i ∧ (f cur i).2 = t i) :
    ∀ (idxs : List Nat) (cur : List α), idxs.Nodup → (∀ j ∈ idxs, cur[j]? = snap[j]?) →
      (∀ j, ((loopIdx f idxs cur).1)[j]? = if j ∈ idxs then v j else cur[j]?) ∧
      (loopIdx f idxs cur).2 = idxs.flatMap t := by
  intro idxs
  induction idxs with
  | nil =>
    intro cur _ _
    refine ⟨fun j => ?_, rfl⟩
    simp [loopIdx]
  | cons i rest ih =>
    intro cur hnd hinv
    have hi : cur[i]? = snap[i]? := hinv i (by simp)
    obtain ⟨hv, ht⟩ := hstep cur i hi
    have hndr : rest.Nodup := (List.nodup_cons.mp hnd).2
    have hir : i ∉ rest := (List.nodup_cons.mp hnd).1
    have hinv2 : ∀ j ∈ rest, ((f cur i).1)[j]? = snap[j]? := by
      intro j hj
      have hji : j ≠ i := by
        intro h
        exact hir (h ▸ hj)
      rw [hframe cur i j hji]
      exact hinv j (by simp [hj])
    obtain ⟨ihg, iht⟩ := ih ((f cur i).1) hndr hinv2
    constructor
    · intro j
      show ((loopIdx f rest ((f cur i).1)).1)[j]? = _
      by_cases hjr : j ∈ rest
      · rw [ihg j, if_pos hjr, if_pos (by simp [hjr])]
      · by_cases hji : j = i
        · subst hji
          rw [ihg j, if_neg hjr, hv, if_pos (by simp)]
        · rw [ihg j, if_neg hjr, hframe cur i j hji,
            if_neg (by simp [hjr, hji])]
    · show (f cur i).2 ++ (loopIdx f rest ((f cur i).1)).2 = _
      rw [iht, ht, List.flatMap_cons]

namespace Sheets

/-- The skip rule of `src/App.tsx` line 84:
the file is skipped when its status is completed and either the sheet sync
is disabled or its sheetSyncStatus is synced. -/
def skip (cfg : SheetsConfig) (f : AppFile) : Bool :=
  decide (f.status = FileStatus.completed) &&
    (!cfg.isSheetEnabled || decide (f.sheetSyncStatus = SheetSyncStatus.synced))

/-- The guard of the sheets stage, `src/App.tsx` line 106:
`isSheetEnabled && spreadsheetId && accessToken` (a JavaScript string is
truthy when non-empty). -/
def sheetConfigured (cfg : SheetsConfig) : Bool :=
  cfg.isSheetEnabled && !(decide (cfg.spreadsheetId = "")) && !(decide (cfg.accessToken = ""))

/-- Net effect of one iteration of the `processAllFiles` loop of
`src/App.tsx` on the file it processes, together with the collaborator
calls it makes.  `extract i` is the settled outcome of awaiting the
base64 conversion plus `extractDataFromImage`, and `append i` that of
`appendToGoogleSheet`, for file index `i`. -/
def step (cfg : SheetsConfig) (extract : Nat → Except String OCRResult)
    (append : Nat → Except String Bool) (tf : AppFile) (i : Nat) :
    AppFile × List CallEv :=
  if skip cfg tf then (tf, [])
  else
    match extract i with
    | Except.error _ =>
        ({ tf with status := FileStatus.error, sheetSyncStatus := SheetSyncStatus.failed },
         [CallEv.extractCall i])
    | Except.ok result =>
        if sheetConfigured cfg then
          match append i with
          | Except.ok success =>
              ({ tf with
                 status := FileStatus.completed
                 extractedData := some result
                 sheetSyncStatus :=
                   if success then SheetSyncStatus.synced else SheetSyncStatus.failed },
               [CallEv.extractCall i, CallEv.appendCall i])
          | Except.error _ =>
              ({ tf with
                 status := FileStatus.error
                 extractedData := some result
                 sheetSyncStatus := SheetSyncStatus.failed },
               [CallEv.extractCall i, CallEv.appendCall i])
        else
          ({ tf with status := FileStatus.completed, extractedData := some result },
           [CallEv.extractCall i])

/-- One iteration of the loop body of `processAllFiles` in `src/App.tsx`,
written exactly as the source performs it: decisions read the snapshot
`snap` (the stale `files` closure), every state change is an
index-conditional whole-queue replacement on the live queue `cur`. -/
def iter (cfg : SheetsConfig) (extract : Nat → Except String OCRResult)
    (append : Nat → Except String Bool) (snap : List AppFile)
    (cur : List AppFile) (i : Nat) : List AppFile × List CallEv :=
  match snap[i]? with
  | none => (cur, [])
  | some tf =>
    if skip cfg tf then (cur, [])
    else
      let cur1 := updAt i (fun f => { f with status := FileStatus.processing }) cur
      match extract i with
      | Except.error _ =>
          (updAt i (fun f =>
              { f with
                status := FileStatus.error
                sheetSyncStatus := SheetSyncStatus.failed }) cur1,
           [CallEv.extractCall i])
      | Except.ok result =>
          let cur2 := updAt i (fun f =>
            { f with status := FileStatus.completed, extractedData := some result }) cur1
          if sheetConfigured cfg then
            let cur3 := updAt i
              (fun f => { f with sheetSyncStatus := SheetSyncStatus.syncing }) cur2
            match append i with
            | Except.ok success =>
                (updAt i (fun f =>
                    { f with sheetSyncStatus :=
                        if success then SheetSyncStatus.synced else SheetSyncStatus.failed })
                  cur3,
                 [CallEv.extractCall i, CallEv.appendCall i])
            | Except.error _ =>
                (updAt i (fun f =>
                    { f with
                      status := FileStatus.error
                      sheetSyncStatus := SheetSyncStatus.failed }) cur3,
                 [CallEv.extractCall i, CallEv.appendCall i])
          else (cur2, [CallEv.extractCall i])

/-- `processAllFiles` of `src/App.tsx`: refuse (with the alert) when no
regions are defined, otherwise drive every file index through the
pipeline in order. -/
def processAllFiles (cfg : SheetsConfig) (extract : Nat → Except String OCRResult)
    (append : Nat → Except String Bool) (regions : List Region)
    (files : List AppFile) : RunResult AppFile :=
  if regions.length = 0 then ⟨files, [], true⟩
  else
    let p := loopIdx (iter cfg extract append files) (List.range files.length) files
    ⟨p.1, p.2, false⟩

theorem sheetsIter_frame (cfg : SheetsConfig) (extract : Nat → Except String OCRResult)
    (append : Nat → Except String Bool) (snap cur : List AppFile) (i j : Nat)
    (hj : j ≠ i) : ((iter cfg extract append snap cur i).1)[j]? = cur[j]? := by
  unfold iter
  cases hs : snap[i]? with
  | none => rfl
  | some tf =>
    by_cases hsk : skip cfg tf
    · simp [hsk]
    · cases hex : extract i with
      | error e => simp [hsk, updAt_get_ne _ hj]
      | ok result =>
        by_cases hcfg : sheetConfigured cfg
        · cases hap : append i with
          | ok success => simp [hsk, hcfg, updAt_get_ne _ hj]
          | error e => simp [hsk, hcfg, updAt_get_ne _ hj]
        · simp [hsk, hcfg, updAt_get_ne _ hj]

theorem sheetsIter_get_self (cfg : SheetsConfig) (extract : Nat → Except String OCRResult)
    (append : Nat → Except String Bool) (snap cur : List AppFile) (i : Nat)
    (tf : AppFile) (hs : snap[i]? = some tf) (hc : cur[i]? = some tf) :
    ((iter cfg extract append snap cur i).1)[i]? =
      some ((step cfg extract append tf i).1) := by
  unfold iter step
  rw [hs]
  by_cases hsk : skip cfg tf
  · simp [hsk, hc]
  · have h1 : (updAt i (fun f => { f with status := FileStatus.processing }) cur)[i]? =
        some { tf with status := FileStatus.processing } := updAt_get_self _ hc
    cases hex : extract i with
    | error e => simp [hsk, updAt_get_self _ h1]
    | ok result =>
      have h2 := updAt_get_self (fun f =>
        { f with status := FileStatus.completed, extractedData := some result }) h1
      by_cases hcfg : sheetConfigured cfg
      · have h3 := updAt_get_self
          (fun f => { f with sheetSyncStatus := SheetSyncStatus.syncing }) h2
        cases hap : append i with
        | ok success => simp [hsk, hcfg, updAt_get_self _ h3]
        | error e => simp [hsk, hcfg, updAt_get_self _ h3]
      · simp [hsk, hcfg, h2]

theorem sheetsIter_trace (cfg : SheetsConfig) (extract : Nat → Except String OCRResult)
    (append : Nat → Except String Bool) (snap cur : List AppFile) (i : Nat)
    (tf : AppFile) (hs : snap[i]? = some tf) :
    (iter cfg extract append snap cur i).2 = (step cfg extract append tf i).2 := by
  unfold iter step
  rw [hs]
  by_cases hsk : skip cfg tf
  · simp [hsk]
  · cases hex : extract i with
    | error e => simp [hsk]
    | ok result =>
      by_cases hcfg : sheetConfigured cfg
      · cases hap : append i with
        | ok success => simp [hsk, hcfg]
        | error e => simp [hsk, hcfg]
      · simp [hsk, hcfg]

theorem sheetsIter_none (cfg : SheetsConfig) (extract : Nat → Except String OCRResult)
    (append : Nat → Except String Bool) (snap cur : List AppFile) (i : Nat)
    (hs : snap[i]? = none) :
    iter cfg extract append snap cur i = (cur, []) := by
  unfold iter
  rw [hs]

/-- Final-queue characterization of a run that was not refused: file `j`
ends in exactly the state `step` computes from its start state. -/
theorem sheetsProcessAllFiles_get (cfg : SheetsConfig) (extract : Nat → Except String OCRResult)
    (append : Nat → Except String Bool) (regions : List Region) (files : List AppFile)
    (hr : regions.length ≠ 0) (j : Nat) :
    ((processAllFiles cfg extract append regions files).files)[j]? =
      (files[j]?).map (fun tf => (step cfg extract append tf j).1) := by
  have h := loopIdx_spec (iter cfg extract append files) files
      (fun k => (files[k]?).map (fun tf => (step cfg extract append tf k).1))
      (fun k => ((files[k]?).map (fun tf => (step cfg extract append tf k).2)).getD [])
      (fun cur i k hk => sheetsIter_frame cfg extract append files cur i k hk)
      (fun cur i hci => by
        cases hs : files[i]? with
        | none =>
          rw [hs] at hci
          rw [sheetsIter_none cfg extract append files cur i hs]
          simp [hs, hci]
        | some tf =>
          rw [hs] at hci
          refine ⟨?_, ?_⟩
          · rw [sheetsIter_get_self cfg extract append files cur i tf hs hci]
            simp [hs]
          · rw [sheetsIter_trace cfg extract append files cur i tf hs]
            simp [hs])
      (List.range files.length) files (List.nodup_range files.length)
      (fun _ _ => rfl)
  obtain ⟨hg, _⟩ := h
  unfold processAllFiles
  rw [if_neg hr]
  have := hg j
  by_cases hj : j ∈ List.range files.length
  · rw [if_pos hj] at this
    exact this
  · rw [if_neg hj] at this
    have hlen : files.length ≤ j := by
      by_contra hlt
      exact hj (List.mem_range.mpr (Nat.lt_of_not_le hlt))
    rw [this, List.getElem?_eq_none hlen]
    rfl

/-- Trace characterization of a run that was not refused: the calls are
the per-file step traces, in file order. -/
theorem sheetsProcessAllFiles_trace (cfg : SheetsConfig) (extract : Nat → Except String OCRResult)
    (append : Nat → Except String Bool) (regions : List Region) (files : List AppFile)
    (hr : regions.length ≠ 0) :
    (processAllFiles cfg extract append regions files).calls =
      (List.range files.length).flatMap
        (fun k => ((files[k]?).map (fun tf => (step cfg extract append tf k).2)).getD []) := by
  have h := loopIdx_spec (iter cfg extract append files) files
      (fun k => (files[k]?).map (fun tf => (step cfg extract append tf k).1))
      (fun k => ((files[k]?).map (fun tf => (step cfg extract append tf k).2)).getD [])
      (fun cur i k hk => sheetsIter_frame cfg extract append files cur i k hk)
      (fun cur i hci => by
        cases hs : files[i]? with
        | none =>
          rw [hs] at hci
          rw [sheetsIter_none cfg extract append files cur i hs]
          simp [hs, hci]
        | some tf =>
          rw [hs] at hci
          refine ⟨?_, ?_⟩
          · rw [sheetsIter_get_self cfg extract append files cur i tf hs hci]
            simp [hs]
          · rw [sheetsIter_trace cfg extract append files cur i tf hs]
            simp [hs])
      (List.range files.length) files (List.nodup_range files.length)
      (fun _ _ => rfl)
  obtain ⟨_, htr⟩ := h
  unfold processAllFiles
  rw [if_neg hr]
  exact htr

end Sheets

namespace Firestore

/-- `saveExtractionToFirestore` of `src/unnamed/part_002`: the awaited
fetch either settles with `response.ok` or throws, and the surrounding
try/catch converts a throw into `false`.  The function therefore never
rejects. -/
def saveExtractionToFirestore (fetchResult : Except String Bool) : Bool :=
  match fetchResult with
  | Except.ok ok => ok
  | Except.error _ => false

/-- Net effect of one iteration of the `processAllFiles` loop of the
Firestore variant (`src/unnamed/part_000` lines 146-169) on the file it
processes.  `extract i` is the settled outcome of `extractDataFromImage`
and `fetchOracle i` the outcome of the Firestore fetch for file `i`. -/
def step (extract : Nat → Except String OCRResult)
    (fetchOracle : Nat → Except String Bool) (tf : EntFile) (i : Nat) :
    EntFile × List CallEv :=
  if tf.status = FileStatus.completed then (tf, [])
  else
    match extract i with
    | Except.error _ =>
        ({ tf with status := FileStatus.error, error := some "Extraction failed" },
         [CallEv.extractCall i])
    | Except.ok result =>
        let syncSuccess := saveExtractionToFirestore (fetchOracle i)
        ({ tf with
           status := FileStatus.completed
           extractedData := some result
           syncStatus := if syncSuccess then SyncStatus.synced else SyncStatus.failed },
         [CallEv.extractCall i, CallEv.persistCall i])

/-- One iteration of the loop body of `processAllFiles` in the Firestore
variant, as the source performs it: the `completed` skip check
reads the snapshot, each state change is an index-conditional
whole-queue replacement on the live queue. -/
def iter (extract : Nat → Except String OCRResult)
    (fetchOracle : Nat → Except String Bool) (snap : List EntFile)
    (cur : List EntFile) (i : Nat) : List EntFile × List CallEv :=
  match snap[i]? with
  | none => (cur, [])
  | some tf =>
    if tf.status = FileStatus.completed then (cur, [])
    else
      let cur1 := updAt i (fun f => { f with status := FileStatus.processing }) cur
      match extract i with
      | Except.error _ =>
          (updAt i (fun f =>
              { f with
                status := FileStatus.error
                error := some "Extraction failed" }) cur1,
           [CallEv.extractCall i])
      | Except.ok result =>
          let cur2 := updAt i (fun f =>
            { f with
              status := FileStatus.completed
              extractedData := some result
              syncStatus := SyncStatus.syncing }) cur1
          let syncSuccess := saveExtractionToFirestore (fetchOracle i)
          (updAt i (fun f =>
              { f with syncStatus :=
                  if syncSuccess then SyncStatus.synced else SyncStatus.failed }) cur2,
           [CallEv.extractCall i, CallEv.persistCall i])

/-- `processAllFiles` of the Firestore variant: refuse when no regions
are defined, otherwise process every file index in order. -/
def processAllFiles (extract : Nat → Except String OCRResult)
    (fetchOracle : Nat → Except String Bool) (regions : List Region)
    (files : List EntFile) : RunResult EntFile :=
  if regions.length = 0 then ⟨files, [], true⟩
  else
    let p := loopIdx (iter extract fetchOracle files) (List.range files.length) files
    ⟨p.1, p.2, false⟩

theorem fsIter_frame (extract : Nat → Except String OCRResult)
    (fetchOracle : Nat → Except String Bool) (snap cur : List EntFile) (i j : Nat)
    (hj : j ≠ i) : ((iter extract fetchOracle snap cur i).1)[j]? = cur[j]? := by
  unfold iter
  cases hs : snap[i]? with
  | none => rfl
  | some tf =>
    by_cases hsk : tf.status = FileStatus.completed
    · simp [hsk]
    · cases hex : extract i with
      | error e => simp [hsk, updAt_get_ne _ hj]
      | ok result => simp [hsk, updAt_get_ne _ hj]

theorem fsIter_get_self (extract : Nat → Except String OCRResult)
    (fetchOracle : Nat → Except String Bool) (snap cur : List EntFile) (i : Nat)
    (tf : EntFile) (hs : snap[i]? = some tf) (hc : cur[i]? = some tf) :
    ((iter extract fetchOracle snap cur i).1)[i]? =
      some ((step extract fetchOracle tf i).1) := by
  unfold iter step
  rw [hs]
  by_cases hsk : tf.status = FileStatus.completed
  · simp [hsk, hc]
  · have h1 : (updAt i (fun f => { f with status := FileStatus.processing }) cur)[i]? =
        some { tf with status := FileStatus.processing } := updAt_get_self _ hc
    cases hex : extract i with
    | error e => simp [hsk, updAt_get_self _ h1]
    | ok result =>
      have h2 := updAt_get_self (fun f =>
        { f with
          status := FileStatus.completed
          extractedData := some result
          syncStatus := SyncStatus.syncing }) h1
      simp [hsk, updAt_get_self _ h2]

theorem fsIter_trace (extract : Nat → Except String OCRResult)
    (fetchOracle : Nat → Except String Bool) (snap cur : List EntFile) (i : Nat)
    (tf : EntFile) (hs : snap[i]? = some tf) :
    (iter extract fetchOracle snap cur i).2 = (step extract fetchOracle tf i).2 := by
  unfold iter step
  rw [hs]
  by_cases hsk : tf.status = FileStatus.completed
  · simp [hsk]
  · cases hex : extract i with
    | error e => simp [hsk]
    | ok result => simp [hsk]

theorem fsIter_none (extract : Nat → Except String OCRResult)
    (fetchOracle : Nat → Except String Bool) (snap cur : List EntFile) (i : Nat)
    (hs : snap[i]? = none) :
    iter extract fetchOracle snap cur i = (cur, []) := by
  unfold iter
  rw [hs]

/-- Final-queue characterization of a non-refused Firestore-variant run. -/
theorem fsProcessAllFiles_get (extract : Nat → Except String OCRResult)
    (fetchOracle : Nat → Except String Bool) (regions : List Region)
    (files : List EntFile) (hr : regions.length ≠ 0) (j : Nat) :
    ((processAllFiles extract fetchOracle regions files).files)[j]? =
      (files[j]?).map (fun tf => (step extract fetchOracle tf j).1) := by
  have h := loopIdx_spec (iter extract fetchOracle files) files
      (fun k => (files[k]?).map (fun tf => (step extract fetchOracle tf k).1))
      (fun k => ((files[k]?).map (fun tf => (step extract fetchOracle tf k).2)).getD [])
      (fun cur i k hk => fsIter_frame extract fetchOracle files cur i k hk)
      (fun cur i hci => by
        cases hs : files[i]? with
        | none =>
          rw [hs] at hci
          rw [fsIter_none extract fetchOracle files cur i hs]
          simp [hs, hci]
        | some tf =>
          rw [hs] at hci
          refine ⟨?_, ?_⟩
          · rw [fsIter_get_self extract fetchOracle files cur i tf hs hci]
            simp [hs]
          · rw [fsIter_trace extract fetchOracle files cur i tf hs]
            simp [hs])
      (List.range files.length) files (List.nodup_range files.length)
      (fun _ _ => rfl)
  obtain ⟨hg, _⟩ := h
  unfold processAllFiles
  rw [if_neg hr]
  have := hg j
  by_cases hj : j ∈ List.range files.length
  · rw [if_pos hj] at this
    exact this
  · rw [if_neg hj] at this
    have hlen : files.length ≤ j := by
      by_contra hlt
      exact hj (List.mem_range.mpr (Nat.lt_of_not_le hlt))
    rw [this, List.getElem?_eq_none hlen]
    rfl

/-- Trace characterization of a non-refused Firestore-variant run. -/
theorem fsProcessAllFiles_trace (extract : Nat → Except String OCRResult)
    (fetchOracle : Nat → Except String Bool) (regions : List Region)
    (files : List EntFile) (hr : regions.length ≠ 0) :
    (processAllFiles extract fetchOracle regions files).calls =
      (List.range files.length).flatMap
        (fun k => ((files[k]?).map (fun tf => (step extract fetchOracle tf k).2)).getD []) := by
  have h := loopIdx_spec (iter extract fetchOracle files) files
      (fun k => (files[k]?).map (fun tf => (step extract fetchOracle tf k).1))
      (fun k => ((files[k]?).map (fun tf => (step extract fetchOracle tf k).2)).getD [])
      (fun cur i k hk => fsIter_frame extract fetchOracle files cur i k hk)
      (fun cur i hci => by
        cases hs : files[i]? with
        | none =>
          rw [hs] at hci
          rw [fsIter_none extract fetchOracle files cur i hs]
          simp [hs, hci]
        | some tf =>
          rw [hs] at hci
          refine ⟨?_, ?_⟩
          · rw [fsIter_get_self extract fetchOracle files cur i tf hs hci]
            simp [hs]
          · rw [fsIter_trace extract fetchOracle files cur i tf hs]
            simp [hs])
      (List.range files.length) files (List.nodup_range files.length)
      (fun _ _ => rfl)
  obtain ⟨_, htr⟩ := h
  unfold processAllFiles
  rw [if_neg hr]
  exact htr

end Firestore

namespace Sheets

/-- A freshly uploaded entry of `src/App.tsx` `handleFileUpload`:
status pending, sheetSyncStatus pending (the literal), no extracted data. -/
def newScannedFile (id : String) : AppFile :=
  { id := id
    status := FileStatus.pending
    sheetSyncStatus := SheetSyncStatus.pending
    extractedData := none
    error := none }

/-- `handleFileUpload` of `src/App.tsx`: appends one fresh entry per
selected file (`setFiles(prev => [...prev, ...newFiles])`). -/
def handleFileUpload (files : List AppFile) (ids : List String) : List AppFile :=
  files ++ ids.map newScannedFile

/-- `removeFile` of `src/App.tsx` lines 54-62: filters the entry out with
no guard on its status. -/
def removeFile (id : String) (files : List AppFile) : List AppFile :=
  files.filter (fun f => !(decide (f.id = id)))

end Sheets

namespace Firestore

/-- A freshly uploaded entry of `handleFileUpload` in the Firestore
variant: status pending, syncStatus unsynced. -/
def newScannedFile (id : String) : EntFile :=
  { id := id
    status := FileStatus.pending
    syncStatus := SyncStatus.unsynced
    extractedData := none
    error := none }

/-- `handleFileUpload` of the Firestore variant: appends fresh entries. -/
def handleFileUpload (files : List EntFile) (ids : List String) : List EntFile :=
  files ++ ids.map newScannedFile

/-- `removeFile` of `src/unnamed/part_000` lines 56-67: looks the entry
up first and silently returns when its status is `processing`; otherwise
filters it out. -/
def removeFile (id : String) (files : List EntFile) : List EntFile :=
  match files.find? (fun f => decide (f.id = id)) with
  | some f =>
      if f.status = FileStatus.processing then files
      else files.filter (fun g => !(decide (g.id = id)))
  | none => files.filter (fun g => !(decide (g.id = id)))

end Firestore

/-- JavaScript `Math.abs` on the rational model of JS numbers. -/
def jsAbs (q : ℚ) : ℚ := if q < 0 then -q else q

/-- JavaScript `Math.min` on the rational model of JS numbers. -/
def jsMin (a b : ℚ) : ℚ := if a ≤ b then a else b

/-- A pointer position in percentage coordinates (`types.ts`, `Point`). -/
structure Point where
  x : ℚ
  y : ℚ
deriving DecidableEq, Repr

/-- The transient drag state of `DocumentCanvas.tsx`
(`isDrawing`, `startPos`, `currentPos`). -/
structure CanvasState where
  isDrawing : Bool
  startPos : Option Point
  currentPos : Option Point
deriving DecidableEq, Repr

namespace Canvas

/-- `handleMouseDown` of `DocumentCanvas.tsx`: records the anchor (already
converted to percentage coordinates) and starts drawing. -/
def handleMouseDown (p : Point) (st : CanvasState) : CanvasState :=
  let _ := st
  { isDrawing := true, startPos := some p, currentPos := some p }

/-- `handleMouseMove` of `DocumentCanvas.tsx`: updates the live end anchor
while drawing. -/
def handleMouseMove (p : Point) (st : CanvasState) : CanvasState :=
  if st.isDrawing then { st with currentPos := some p } else st

/-- The auto-generated region name of `DocumentCanvas.tsx` line 56. -/
def autoName (n : Nat) : String := "Field " ++ Nat.repr n

/-- `handleMouseUp` of `DocumentCanvas.tsx` lines 44-69 (the drag commit):
with both anchors present it computes the absolute width/height, and when
both exceed 1 it appends one region named from the current count and
selects it; otherwise the region list is untouched.  `newId` stands for
`crypto.randomUUID()`.  Returns the reset canvas state, the region list
and the active selection. -/
def handleMouseUp (newId : String) (st : CanvasState) (regions : List Region)
    (activeRegionId : Option String) :
    CanvasState × List Region × Option String :=
  match st.isDrawing, st.startPos, st.currentPos with
  | true, some startPos, some currentPos =>
    let width := jsAbs (currentPos.x - startPos.x)
    let height := jsAbs (currentPos.y - startPos.y)
    let (regions2, active2) :=
      if 1 < width ∧ 1 < height then
        let newRegion : Region :=
          { id := newId
            name := autoName (regions.length + 1)
            x := jsMin startPos.x currentPos.x
            y := jsMin startPos.y currentPos.y
            width := width
            height := height }
        (regions ++ [newRegion], some newId)
      else (regions, activeRegionId)
    ({ isDrawing := false, startPos := none, currentPos := none }, regions2, active2)
  | _, _, _ => ({ st with isDrawing := false }, regions, activeRegionId)

/-- `deleteRegion` of `src/App.tsx` lines 64-67: removes the region and
clears the active selection when it pointed at it. -/
def deleteRegion (id : String) (regions : List Region) (active : Option String) :
    List Region × Option String :=
  (regions.filter (fun r => !(decide (r.id = id))),
   if active = some id then none else active)

end Canvas

namespace Gemini

/-- The literal two-character text of an empty JSON object, as used in
`JSON.parse(response.text || "...")` in `src/services/geminiService.ts`. -/
def emptyObjectText : String := "\x7b\x7d"

/-- The response handling of `extractDataFromImage`
(`src/services/geminiService.ts` lines 55-60): parse
`response.text || emptyObjectText`; a parse failure is caught and
yields the empty mapping.  `parseJson` is the `JSON.parse` oracle
(`none` = throw), `responseText` the optional response text. -/
def extractDataFromImage (parseJson : String → Option OCRResult)
    (responseText : Option String) : OCRResult :=
  let effective :=
    match responseText with
    | none => emptyObjectText
    | some s => if s = "" then emptyObjectText else s
  match parseJson effective with
  | some r => r
  | none => []

end Gemini

theorem jsAbs_eq_abs (q : ℚ) : jsAbs q = |q| := by
  unfold jsAbs
  rcases lt_or_le q 0 with h | h
  · rw [if_pos h, abs_of_neg h]
  · rw [if_neg (not_lt.mpr h), abs_of_nonneg h]

theorem jsMin_eq_min (a b : ℚ) : jsMin a b = min a b := by
  unfold jsMin
  rcases le_total a b with h | h
  · rw [if_pos h, min_eq_left h]
  · rcases eq_or_lt_of_le h with rfl | hlt
    · simp
    · rw [if_neg (not_le.mpr hlt), min_eq_right h]

theorem Sheets.skip_iff (cfg : SheetsConfig) (tf : AppFile) :
    Sheets.skip cfg tf = true ↔
      (tf.status = FileStatus.completed ∧
        (cfg.isSheetEnabled = false ∨ tf.sheetSyncStatus = SheetSyncStatus.synced)) := by
  simp [Sheets.skip]

theorem Sheets.sheetsStep_of_skip (cfg : SheetsConfig) (extract : Nat → Except String OCRResult)
    (append : Nat → Except String Bool) (tf : AppFile) (i : Nat)
    (h : Sheets.skip cfg tf = true) :
    Sheets.step cfg extract append tf i = (tf, []) := by
  unfold Sheets.step
  rw [h]
  rfl

theorem Firestore.fsStep_of_skip (extract : Nat → Except String OCRResult)
    (fetchOracle : Nat → Except String Bool) (tf : EntFile) (i : Nat)
    (h : tf.status = FileStatus.completed) :
    Firestore.step extract fetchOracle tf i = (tf, []) := by
  unfold Firestore.step
  rw [if_pos h]

theorem Sheets.sheetsStep_trace_extract_mem (cfg : SheetsConfig)
    (extract : Nat → Except String OCRResult) (append : Nat → Except String Bool)
    (tf : AppFile) (i : Nat) (h : Sheets.skip cfg tf = false) :
    CallEv.extractCall i ∈ (Sheets.step cfg extract append tf i).2 := by
  unfold Sheets.step
  rw [h]
  cases extract i with
  | error e => simp
  | ok result =>
    by_cases hcfg : sheetConfigured cfg
    · cases append i with
      | ok success => simp [hcfg]
      | error e => simp [hcfg]
    · simp [hcfg]

theorem Firestore.fsStep_trace_extract_mem (extract : Nat → Except String OCRResult)
    (fetchOracle : Nat → Except String Bool) (tf : EntFile) (i : Nat)
    (h : tf.status ≠ FileStatus.completed) :
    CallEv.extractCall i ∈ (Firestore.step extract fetchOracle tf i).2 := by
  unfold Firestore.step
  rw [if_neg h]
  cases extract i with
  | error e => simp
  | ok result => simp

theorem Sheets.sheetsStep_trace_idx (cfg : SheetsConfig)
    (extract : Nat → Except String OCRResult) (append : Nat → Except String Bool)
    (tf : AppFile) (i : Nat) (e : CallEv)
    (he : e ∈ (Sheets.step cfg extract append tf i).2) : e.idx = i := by
  unfold Sheets.step at he
  by_cases hsk : Sheets.skip cfg tf
  · simp [hsk] at he
  · rw [Bool.not_eq_true] at hsk
    rw [hsk] at he
    cases hex : extract i with
    | error em =>
      rw [hex] at he
      simp at he
      subst he
      rfl
    | ok result =>
      rw [hex] at he
      by_cases hcfg : sheetConfigured cfg
      · cases hap : append i with
        | ok success =>
          rw [hap] at he
          simp [hcfg] at he
          rcases he with rfl | rfl <;> rfl
        | error em =>
          rw [hap] at he
          simp [hcfg] at he
          rcases he with rfl | rfl <;> rfl
      · simp [hcfg] at he
        subst he
        rfl

theorem Firestore.fsStep_trace_idx (extract : Nat → Except String OCRResult)
    (fetchOracle : Nat → Except String Bool) (tf : EntFile) (i : Nat) (e : CallEv)
    (he : e ∈ (Firestore.step extract fetchOracle tf i).2) : e.idx = i := by
  unfold Firestore.step at he
  by_cases hsk : tf.status = FileStatus.completed
  · simp [hsk] at he
  · rw [if_neg hsk] at he
    cases hex : extract i with
    | error em =>
      rw [hex] at he
      simp at he
      subst he
      rfl
    | ok result =>
      rw [hex] at he
      simp at he
      rcases he with rfl | rfl <;> rfl

/-- C5: invoking the batch run while the Field Registry is empty signals
the configuration error immediately and mutates the state of no file: in both
orchestrator variants the run with an empty region list returns the queue
exactly as it was, performs no collaborator call, and reports the
configuration error. -/
theorem c5_empty_registry_refuses (cfg : SheetsConfig)
    (extract : Nat → Except String OCRResult) (append : Nat → Except String Bool)
    (fetchOracle : Nat → Except String Bool)
    (filesA : List AppFile) (filesE : List EntFile) :
    Sheets.processAllFiles cfg extract append [] filesA =
      ⟨filesA, [], true⟩ ∧
    Firestore.processAllFiles extract fetchOracle [] filesE =
      ⟨filesE, [], true⟩ := by
  constructor <;> rfl

/-- C7: for every drag with start anchor `s` and end anchor `e`, the
drag commit (`handleMouseUp`) computes width `|e.x - s.x|`, height
`|e.y - s.y|`, corner `(min s.x e.x, min s.y e.y)`, and appends exactly
one new region with these values when both exceed 1, selecting it;
otherwise it leaves the region list unchanged. -/
theorem c7_commitDrag_geometry (newId : String) (s e : Point)
    (regions : List Region) (active : Option String) :
    Canvas.handleMouseUp newId ⟨true, some s, some e⟩ regions active =
      (⟨false, none, none⟩,
       (if 1 < |e.x - s.x| ∧ 1 < |e.y - s.y| then
          regions ++ [{ id := newId
                        name := Canvas.autoName (regions.length + 1)
                        x := min s.x e.x
                        y := min s.y e.y
                        width := |e.x - s.x|
                        height := |e.y - s.y| }]
        else regions,
        if 1 < |e.x - s.x| ∧ 1 < |e.y - s.y| then some newId else active)) := by
  unfold Canvas.handleMouseUp
  simp only [jsAbs_eq_abs, jsMin_eq_min]
  by_cases h : 1 < |e.x - s.x| ∧ 1 < |e.y - s.y|
  · simp [h]
  · simp [h]

/-- C8: idempotence of the skip rule.  Re-invoking a batch run on a queue
where every file is completed and (when the sheets sync is enabled)
synced performs zero collaborator calls and leaves the state of every file
unchanged, in both orchestrator variants. -/
theorem c8_skip_rule_idempotent (cfg : SheetsConfig)
    (extract : Nat → Except String OCRResult) (append : Nat → Except String Bool)
    (fetchOracle : Nat → Except String Bool) (regions : List Region)
    (filesA : List AppFile) (filesE : List EntFile)
    (hA : ∀ f ∈ filesA, f.status = FileStatus.completed ∧
        (cfg.isSheetEnabled = true → f.sheetSyncStatus = SheetSyncStatus.synced))
    (hE : ∀ f ∈ filesE, f.status = FileStatus.completed ∧
        f.syncStatus = SyncStatus.synced) :
    (Sheets.processAllFiles cfg extract append regions filesA).files = filesA ∧
    (Sheets.processAllFiles cfg extract append regions filesA).calls = [] ∧
    (Firestore.processAllFiles extract fetchOracle regions filesE).files = filesE ∧
    (Firestore.processAllFiles extract fetchOracle regions filesE).calls = [] := by
  by_cases hr : regions.length = 0
  · unfold Sheets.processAllFiles Firestore.processAllFiles
    rw [if_pos hr]
    rw [if_pos hr]
    exact ⟨rfl, rfl, rfl, rfl⟩
  · have hskipA : ∀ f ∈ filesA, Sheets.skip cfg f = true := by
      intro f hf
      obtain ⟨h1, h2⟩ := hA f hf
      rw [Sheets.skip_iff]
      refine ⟨h1, ?_⟩
      cases hen : cfg.isSheetEnabled with
      | false => exact Or.inl rfl
      | true => exact Or.inr (h2 hen)
    refine ⟨?_, ?_, ?_, ?_⟩
    · apply List.ext_getElem?
      intro n
      rw [Sheets.sheetsProcessAllFiles_get cfg extract append regions filesA hr n]
      cases hn : filesA[n]? with
      | none => rfl
      | some tf =>
        have := Sheets.sheetsStep_of_skip cfg extract append tf n
          (hskipA tf (List.getElem?_mem hn))
        simp [this]
    · rw [Sheets.sheetsProcessAllFiles_trace cfg extract append regions filesA hr]
      apply List.flatMap_eq_nil_iff.mpr
      intro k _
      cases hk : filesA[k]? with
      | none => rfl
      | some tf =>
        have := Sheets.sheetsStep_of_skip cfg extract append tf k
          (hskipA tf (List.getElem?_mem hk))
        simp [this]
    · apply List.ext_getElem?
      intro n
      rw [Firestore.fsProcessAllFiles_get extract fetchOracle regions filesE hr n]
      cases hn : filesE[n]? with
      | none => rfl
      | some tf =>
        have := Firestore.fsStep_of_skip extract fetchOracle tf n
          (hE tf (List.getElem?_mem hn)).1
        simp [this]
    · rw [Firestore.fsProcessAllFiles_trace extract fetchOracle regions filesE hr]
      apply List.flatMap_eq_nil_iff.mpr
      intro k _
      cases hk : filesE[k]? with
      | none => rfl
      | some tf =>
        have := Firestore.fsStep_of_skip extract fetchOracle tf k
          (hE tf (List.getElem?_mem hk)).1
        simp [this]

/-- Witness for C8 at a concrete queue: one completed synced file in each
variant, sheets sync enabled, one region defined. -/
theorem c8_skip_rule_idempotent_witness :
    (∀ f ∈ [({ id := "a", status := FileStatus.completed,
               sheetSyncStatus := SheetSyncStatus.synced, extractedData := some [("N", "1")],
               error := none } : AppFile)],
        f.status = FileStatus.completed ∧
          ((true : Bool) = true → f.sheetSyncStatus = SheetSyncStatus.synced)) ∧
    (Sheets.processAllFiles ⟨true, "sid", "tok"⟩ (fun _ => Except.ok [("N", "2")])
        (fun _ => Except.ok true) [⟨"r1", "N", 0, 0, 10, 10⟩]
        [{ id := "a", status := FileStatus.completed,
           sheetSyncStatus := SheetSyncStatus.synced, extractedData := some [("N", "1")],
           error := none }]).files =
      [{ id := "a", status := FileStatus.completed,
         sheetSyncStatus := SheetSyncStatus.synced, extractedData := some [("N", "1")],
         error := none }] := by
  have h := c8_skip_rule_idempotent ⟨true, "sid", "tok"⟩
    (fun _ => Except.ok [("N", "2")]) (fun _ => Except.ok true)
    (fun _ => Except.ok true) [⟨"r1", "N", 0, 0, 10, 10⟩]
    [{ id := "a", status := FileStatus.completed,
       sheetSyncStatus := SheetSyncStatus.synced, extractedData := some [("N", "1")],
       error := none }]
    [{ id := "e", status := FileStatus.completed, syncStatus := SyncStatus.synced,
       extractedData := some [("N", "1")], error := none }]
    (by
      intro f hf
      rw [List.mem_singleton] at hf
      subst hf
      exact ⟨rfl, fun _ => rfl⟩)
    (by
      intro f hf
      rw [List.mem_singleton] at hf
      subst hf
      exact ⟨rfl, rfl⟩)
  refine ⟨?_, h.1⟩
  intro f hf
  rw [List.mem_singleton] at hf
  subst hf
  exact ⟨rfl, fun _ => rfl⟩

/-- C10: the extraction service never rejects because of an unparseable
collaborator response.  Whenever the response text is absent, empty, or
fails JSON parsing, `extractDataFromImage` resolves with the empty
mapping (assuming only that the `JSON.parse` oracle parses the literal
empty-object text to the empty mapping), and an orchestrator run then
marks the file completed with an `extractedData` containing no region
keys. -/
theorem c10_unparseable_response_empty_mapping
    (parseJson : String → Option OCRResult) (responseText : Option String)
    (cfg : SheetsConfig) (extract : Nat → Except String OCRResult)
    (append : Nat → Except String Bool) (regions : List Region)
    (files : List AppFile) (i : Nat) (tf : AppFile)
    (hp : parseJson Gemini.emptyObjectText = some [])
    (htext : responseText = none ∨ responseText = some "" ∨
      ∃ s, responseText = some s ∧ parseJson s = none)
    (hr : regions.length ≠ 0) (hf : files[i]? = some tf)
    (hst : tf.status = FileStatus.pending) (hen : cfg.isSheetEnabled = false)
    (hex : extract i = Except.ok (Gemini.extractDataFromImage parseJson responseText)) :
    Gemini.extractDataFromImage parseJson responseText = [] ∧
    ((Sheets.processAllFiles cfg extract append regions files).files)[i]? =
      some { tf with status := FileStatus.completed, extractedData := some [] } := by
  have hempty : Gemini.extractDataFromImage parseJson responseText = [] := by
    unfold Gemini.extractDataFromImage
    rcases htext with rfl | rfl | ⟨s, rfl, hps⟩
    · simp [hp]
    · simp [hp]
    · by_cases hs : s = ""
      · subst hs
        simp [hp]
      · simp [hs, hps]
  refine ⟨hempty, ?_⟩
  rw [Sheets.sheetsProcessAllFiles_get cfg extract append regions files hr i, hf]
  have hskip : Sheets.skip cfg tf = false := by
    simp [Sheets.skip, hst]
  have hcfg : Sheets.sheetConfigured cfg = false := by
    simp [Sheets.sheetConfigured, hen]
  rw [hempty] at hex
  simp [Sheets.step, hskip, hex, hcfg]

/-- Witness for C10: a concrete parse oracle that fails on the concrete
garbage response, a pending file, one region; the run completes the file
with an empty extracted mapping. -/
theorem c10_unparseable_response_empty_mapping_witness :
    Gemini.extractDataFromImage
        (fun s => if s = Gemini.emptyObjectText then some [] else none)
        (some "garbage") = [] ∧
    ((Sheets.processAllFiles ⟨false, "", ""⟩
        (fun _ => Except.ok (Gemini.extractDataFromImage
          (fun s => if s = Gemini.emptyObjectText then some [] else none)
          (some "garbage")))
        (fun _ => Except.ok true) [⟨"r1", "N", 0, 0, 10, 10⟩]
        [{ id := "a", status := FileStatus.pending,
           sheetSyncStatus := SheetSyncStatus.pending, extractedData := none,
           error := none }]).files)[0]? =
      some { id := "a", status := FileStatus.completed,
             sheetSyncStatus := SheetSyncStatus.pending, extractedData := some [],
             error := none } :=
  c10_unparseable_response_empty_mapping
    (fun s => if s = Gemini.emptyObjectText then some [] else none)
    (some "garbage") ⟨false, "", ""⟩
    (fun _ => Except.ok (Gemini.extractDataFromImage
      (fun s => if s = Gemini.emptyObjectText then some [] else none)
      (some "garbage")))
    (fun _ => Except.ok true) [⟨"r1", "N", 0, 0, 10, 10⟩]
    [{ id := "a", status := FileStatus.pending,
       sheetSyncStatus := SheetSyncStatus.pending, extractedData := none,
       error := none }] 0
    { id := "a", status := FileStatus.pending,
      sheetSyncStatus := SheetSyncStatus.pending, extractedData := none,
      error := none }
    (by rfl)
    (Or.inr (Or.inr ⟨"garbage", rfl, by rfl⟩))
    (by decide) rfl rfl rfl rfl

/-- C1 counterexample: in the Firestore variant a sync stage is always
configured, yet after an extraction failure the `syncStatus` of the file is
left at `unsynced` — it is not set to `failed` as the claim states (the
file does get `status = error` and `error = "Extraction failed"`, and
that is all the catch block writes). -/
theorem c1_counterexample :
    (Firestore.processAllFiles (fun _ => Except.error "network down")
        (fun _ => Except.ok true) [⟨"r1", "N", 0, 0, 10, 10⟩]
        [{ id := "a", status := FileStatus.pending, syncStatus := SyncStatus.unsynced,
           extractedData := none, error := none }]).files =
      [{ id := "a", status := FileStatus.error, syncStatus := SyncStatus.unsynced,
         extractedData := none, error := some "Extraction failed" }] ∧
    SyncStatus.unsynced ≠ SyncStatus.failed := by
  constructor
  · decide
  · decide

/-- C1 amended: an extraction failure of one file never aborts the batch — in
both variants every non-skipped file still gets its extraction call —
and the status of the failing file is set to `error`; but the two variants
split the rest of the claimed behavior.  The Firestore variant records
`error = "Extraction failed"` and leaves `syncStatus` unchanged (it is
not set to `failed`); the Sheets variant sets `sheetSyncStatus = failed`
but records no error message (its `error` field is left unchanged). -/
theorem c1_extraction_failure_isolated (cfg : SheetsConfig)
    (extract : Nat → Except String OCRResult) (append : Nat → Except String Bool)
    (fetchOracle : Nat → Except String Bool) (regions : List Region)
    (filesA : List AppFile) (filesE : List EntFile) (hr : regions.length ≠ 0) :
    (∀ i tf msg, filesE[i]? = some tf → tf.status ≠ FileStatus.completed →
        extract i = Except.error msg →
        ((Firestore.processAllFiles extract fetchOracle regions filesE).files)[i]? =
          some { tf with status := FileStatus.error, error := some "Extraction failed" }) ∧
    (∀ j tg, filesE[j]? = some tg → tg.status ≠ FileStatus.completed →
        CallEv.extractCall j ∈
          (Firestore.processAllFiles extract fetchOracle regions filesE).calls) ∧
    (∀ i tf msg, filesA[i]? = some tf → Sheets.skip cfg tf = false →
        extract i = Except.error msg →
        ((Sheets.processAllFiles cfg extract append regions filesA).files)[i]? =
          some { tf with
                 status := FileStatus.error
                 sheetSyncStatus := SheetSyncStatus.failed }) ∧
    (∀ j tg, filesA[j]? = some tg → Sheets.skip cfg tg = false →
        CallEv.extractCall j ∈
          (Sheets.processAllFiles cfg extract append regions filesA).calls) := by
  refine ⟨?_, ?_, ?_, ?_⟩
  · intro i tf msg hf hne hex
    rw [Firestore.fsProcessAllFiles_get extract fetchOracle regions filesE hr i, hf]
    simp [Firestore.step, hne, hex]
  · intro j tg hf hne
    rw [Firestore.fsProcessAllFiles_trace extract fetchOracle regions filesE hr]
    apply List.mem_flatMap.mpr
    refine ⟨j, List.mem_range.mpr (List.getElem?_eq_some.mp hf).1, ?_⟩
    rw [hf]
    exact Firestore.fsStep_trace_extract_mem extract fetchOracle tg j hne
  · intro i tf msg hf hsk hex
    rw [Sheets.sheetsProcessAllFiles_get cfg extract append regions filesA hr i, hf]
    simp [Sheets.step, hsk, hex]
  · intro j tg hf hsk
    rw [Sheets.sheetsProcessAllFiles_trace cfg extract append regions filesA hr]
    apply List.mem_flatMap.mpr
    refine ⟨j, List.mem_range.mpr (List.getElem?_eq_some.mp hf).1, ?_⟩
    rw [hf]
    exact Sheets.sheetsStep_trace_extract_mem cfg extract append tg j hsk

/-- Witness for C1 at a concrete failing extraction in both variants. -/
theorem c1_extraction_failure_isolated_witness :
    ((Firestore.processAllFiles (fun _ => Except.error "boom") (fun _ => Except.ok true)
        [⟨"r1", "N", 0, 0, 10, 10⟩]
        [{ id := "e", status := FileStatus.pending, syncStatus := SyncStatus.unsynced,
           extractedData := none, error := none }]).files)[0]? =
      some { id := "e", status := FileStatus.error, syncStatus := SyncStatus.unsynced,
             extractedData := none, error := some "Extraction failed" } ∧
    ((Sheets.processAllFiles ⟨true, "sid", "tok"⟩ (fun _ => Except.error "boom")
        (fun _ => Except.ok true) [⟨"r1", "N", 0, 0, 10, 10⟩]
        [{ id := "a", status := FileStatus.pending,
           sheetSyncStatus := SheetSyncStatus.pending, extractedData := none,
           error := none }]).files)[0]? =
      some { id := "a", status := FileStatus.error,
             sheetSyncStatus := SheetSyncStatus.failed, extractedData := none,
             error := none } := by
  have h := c1_extraction_failure_isolated ⟨true, "sid", "tok"⟩
    (fun _ => Except.error "boom") (fun _ => Except.ok true) (fun _ => Except.ok true)
    [⟨"r1", "N", 0, 0, 10, 10⟩]
    [{ id := "a", status := FileStatus.pending,
       sheetSyncStatus := SheetSyncStatus.pending, extractedData := none, error := none }]
    [{ id := "e", status := FileStatus.pending, syncStatus := SyncStatus.unsynced,
       extractedData := none, error := none }]
    (by decide)
  exact ⟨h.1 0 _ "boom" rfl (by decide) rfl, h.2.2.1 0 _ "boom" rfl (by decide) rfl⟩

/-- C2 counterexample: in the Firestore variant the sync collaborator is
always configured, yet a file that is `completed` with `syncStatus =
failed` (not `synced`) is skipped by the batch run: no call is made and
no state changes — contradicting the claim that such a file is
re-processed. -/
theorem c2_counterexample :
    Firestore.processAllFiles (fun _ => Except.ok [("N", "1")]) (fun _ => Except.ok true)
        [⟨"r1", "N", 0, 0, 10, 10⟩]
        [{ id := "a", status := FileStatus.completed, syncStatus := SyncStatus.failed,
           extractedData := some [("N", "1")], error := none }] =
      ⟨[{ id := "a", status := FileStatus.completed, syncStatus := SyncStatus.failed,
          extractedData := some [("N", "1")], error := none }], [], false⟩ ∧
    SyncStatus.failed ≠ SyncStatus.synced := by
  constructor
  · decide
  · decide

/-- C2 amended: the claimed skip rule (skip iff completed, and, when sync
is configured, synced) is exactly the one of the Sheets variant
(`src/App.tsx`); the Firestore variant instead skips a file iff its
status is `completed`, regardless of its `syncStatus`, so a completed
but unsynced file is not re-processed there.  "Skipped" is expressed as:
the state of the file is unchanged and no collaborator call carries its
index. -/
theorem c2_skip_rule (cfg : SheetsConfig)
    (extract : Nat → Except String OCRResult) (append : Nat → Except String Bool)
    (fetchOracle : Nat → Except String Bool) (regions : List Region)
    (filesA : List AppFile) (filesE : List EntFile) (hr : regions.length ≠ 0)
    (i : Nat) (tf : AppFile) (j : Nat) (tg : EntFile)
    (hA : filesA[i]? = some tf) (hE : filesE[j]? = some tg) :
    ((((Sheets.processAllFiles cfg extract append regions filesA).files)[i]? = some tf ∧
        ∀ e ∈ (Sheets.processAllFiles cfg extract append regions filesA).calls,
          e.idx ≠ i) ↔
      Sheets.skip cfg tf = true) ∧
    ((((Firestore.processAllFiles extract fetchOracle regions filesE).files)[j]? = some tg ∧
        ∀ e ∈ (Firestore.processAllFiles extract fetchOracle regions filesE).calls,
          e.idx ≠ j) ↔
      tg.status = FileStatus.completed) := by
  constructor
  · constructor
    · rintro ⟨hstate, hcalls⟩
      by_cases hsk : Sheets.skip cfg tf = true
      · exact hsk
      · exfalso
        rw [Bool.not_eq_true] at hsk
        have hmem : CallEv.extractCall i ∈
            (Sheets.processAllFiles cfg extract append regions filesA).calls := by
          rw [Sheets.sheetsProcessAllFiles_trace cfg extract append regions filesA hr]
          refine List.mem_flatMap.mpr
            ⟨i, List.mem_range.mpr (List.getElem?_eq_some.mp hA).1, ?_⟩
          rw [hA]
          simp only [Option.map_some', Option.getD_some]
          exact Sheets.sheetsStep_trace_extract_mem cfg extract append tf i hsk
        exact hcalls _ hmem rfl
    · intro hsk
      constructor
      · rw [Sheets.sheetsProcessAllFiles_get cfg extract append regions filesA hr i, hA]
        rw [Option.map_some']
        rw [Sheets.sheetsStep_of_skip cfg extract append tf i hsk]
      · intro e he hidx
        rw [Sheets.sheetsProcessAllFiles_trace cfg extract append regions filesA hr] at he
        obtain ⟨k, hk, hek⟩ := List.mem_flatMap.mp he
        cases hfk : filesA[k]? with
        | none =>
          rw [hfk] at hek
          simp at hek
        | some tk =>
          rw [hfk] at hek
          simp only [Option.map_some', Option.getD_some] at hek
          have hik := Sheets.sheetsStep_trace_idx cfg extract append tk k e hek
          rw [hidx] at hik
          subst hik
          rw [hA] at hfk
          have htk := Option.some.inj hfk
          subst htk
          rw [Sheets.sheetsStep_of_skip cfg extract append tf i hsk] at hek
          simp at hek
  · constructor
    · rintro ⟨hstate, hcalls⟩
      by_cases hsk : tg.status = FileStatus.completed
      · exact hsk
      · exfalso
        have hmem : CallEv.extractCall j ∈
            (Firestore.processAllFiles extract fetchOracle regions filesE).calls := by
          rw [Firestore.fsProcessAllFiles_trace extract fetchOracle regions filesE hr]
          refine List.mem_flatMap.mpr
            ⟨j, List.mem_range.mpr (List.getElem?_eq_some.mp hE).1, ?_⟩
          rw [hE]
          simp only [Option.map_some', Option.getD_some]
          exact Firestore.fsStep_trace_extract_mem extract fetchOracle tg j hsk
        exact hcalls _ hmem rfl
    · intro hsk
      constructor
      · rw [Firestore.fsProcessAllFiles_get extract fetchOracle regions filesE hr j, hE]
        rw [Option.map_some']
        rw [Firestore.fsStep_of_skip extract fetchOracle tg j hsk]
      · intro e he hidx
        rw [Firestore.fsProcessAllFiles_trace extract fetchOracle regions filesE hr] at he
        obtain ⟨k, hk, hek⟩ := List.mem_flatMap.mp he
        cases hfk : filesE[k]? with
        | none =>
          rw [hfk] at hek
          simp at hek
        | some tk =>
          rw [hfk] at hek
          simp only [Option.map_some', Option.getD_some] at hek
          have hik := Firestore.fsStep_trace_idx extract fetchOracle tk k e hek
          rw [hidx] at hik
          subst hik
          rw [hE] at hfk
          have htk := Option.some.inj hfk
          subst htk
          rw [Firestore.fsStep_of_skip extract fetchOracle tg j hsk] at hek
          simp at hek

/-- Witness for C2: a completed-and-synced file is skipped by the Sheets
variant, and a completed file is skipped by the Firestore variant. -/
theorem c2_skip_rule_witness :
    (((Sheets.processAllFiles ⟨true, "sid", "tok"⟩ (fun _ => Except.ok [("N", "2")])
        (fun _ => Except.ok true) [⟨"r1", "N", 0, 0, 10, 10⟩]
        [{ id := "a", status := FileStatus.completed,
           sheetSyncStatus := SheetSyncStatus.synced, extractedData := some [("N", "1")],
           error := none }]).files)[0]? =
      some { id := "a", status := FileStatus.completed,
             sheetSyncStatus := SheetSyncStatus.synced, extractedData := some [("N", "1")],
             error := none } ∧
      ∀ e ∈ (Sheets.processAllFiles ⟨true, "sid", "tok"⟩ (fun _ => Except.ok [("N", "2")])
        (fun _ => Except.ok true) [⟨"r1", "N", 0, 0, 10, 10⟩]
        [{ id := "a", status := FileStatus.completed,
           sheetSyncStatus := SheetSyncStatus.synced, extractedData := some [("N", "1")],
           error := none }]).calls, e.idx ≠ 0) ∧
    (((Firestore.processAllFiles (fun _ => Except.ok [("N", "2")]) (fun _ => Except.ok true)
        [⟨"r1", "N", 0, 0, 10, 10⟩]
        [{ id := "e", status := FileStatus.completed, syncStatus := SyncStatus.synced,
           extractedData := some [("N", "1")], error := none }]).files)[0]? =
      some { id := "e", status := FileStatus.completed, syncStatus := SyncStatus.synced,
             extractedData := some [("N", "1")], error := none } ∧
      ∀ e ∈ (Firestore.processAllFiles (fun _ => Except.ok [("N", "2")])
        (fun _ => Except.ok true) [⟨"r1", "N", 0, 0, 10, 10⟩]
        [{ id := "e", status := FileStatus.completed, syncStatus := SyncStatus.synced,
           extractedData := some [("N", "1")], error := none }]).calls, e.idx ≠ 0) := by
  have h := c2_skip_rule ⟨true, "sid", "tok"⟩ (fun _ => Except.ok [("N", "2")])
    (fun _ => Except.ok true) (fun _ => Except.ok true) [⟨"r1", "N", 0, 0, 10, 10⟩]
    [{ id := "a", status := FileStatus.completed,
       sheetSyncStatus := SheetSyncStatus.synced, extractedData := some [("N", "1")],
       error := none }]
    [{ id := "e", status := FileStatus.completed, syncStatus := SyncStatus.synced,
       extractedData := some [("N", "1")], error := none }]
    (by decide) 0
    { id := "a", status := FileStatus.completed,
      sheetSyncStatus := SheetSyncStatus.synced, extractedData := some [("N", "1")],
      error := none }
    0
    { id := "e", status := FileStatus.completed, syncStatus := SyncStatus.synced,
      extractedData := some [("N", "1")], error := none }
    rfl rfl
  exact ⟨h.1.mpr (by decide), h.2.mpr rfl⟩

/-- C4 counterexample: in the Sheets variant, when the spreadsheet stage
throws (rather than returning `false`), the outer catch block also flips
the `status` of the file from `completed` to `error` — the status does not
stay `completed` as the claim states. -/
theorem c4_counterexample :
    (Sheets.processAllFiles ⟨true, "sid", "tok"⟩ (fun _ => Except.ok [("N", "v")])
        (fun _ => Except.error "network") [⟨"r1", "N", 0, 0, 10, 10⟩]
        [{ id := "a", status := FileStatus.pending,
           sheetSyncStatus := SheetSyncStatus.pending, extractedData := none,
           error := none }]).files =
      [{ id := "a", status := FileStatus.error,
         sheetSyncStatus := SheetSyncStatus.failed, extractedData := some [("N", "v")],
         error := none }] ∧
    FileStatus.error ≠ FileStatus.completed := by
  constructor
  · decide
  · decide

/-- C4 amended: when the sync stage for a completed file returns `false`,
only the sync status of that file is set to `failed` — its status stays
`completed` — and processing continues with every other non-skipped
file; this also holds in the Firestore variant, whose persistence
collaborator converts its own failures to `false` and never throws.  But
when the spreadsheet call of the Sheets variant throws, the catch block sets
the `status` of the file to `error` as well (the extracted data is kept). -/
theorem c4_sync_failure_isolated (cfg : SheetsConfig)
    (extract : Nat → Except String OCRResult) (append : Nat → Except String Bool)
    (fetchOracle : Nat → Except String Bool) (regions : List Region)
    (filesA : List AppFile) (filesE : List EntFile)
    (hr : regions.length ≠ 0) (hcfg : Sheets.sheetConfigured cfg = true) :
    (∀ i tf r, filesA[i]? = some tf → Sheets.skip cfg tf = false →
        extract i = Except.ok r → append i = Except.ok false →
        ((Sheets.processAllFiles cfg extract append regions filesA).files)[i]? =
          some { tf with
                 status := FileStatus.completed
                 extractedData := some r
                 sheetSyncStatus := SheetSyncStatus.failed }) ∧
    (∀ i tf r msg, filesA[i]? = some tf → Sheets.skip cfg tf = false →
        extract i = Except.ok r → append i = Except.error msg →
        ((Sheets.processAllFiles cfg extract append regions filesA).files)[i]? =
          some { tf with
                 status := FileStatus.error
                 extractedData := some r
                 sheetSyncStatus := SheetSyncStatus.failed }) ∧
    (∀ j tg r, filesE[j]? = some tg → tg.status ≠ FileStatus.completed →
        extract j = Except.ok r →
        Firestore.saveExtractionToFirestore (fetchOracle j) = false →
        ((Firestore.processAllFiles extract fetchOracle regions filesE).files)[j]? =
          some { tg with
                 status := FileStatus.completed
                 extractedData := some r
                 syncStatus := SyncStatus.failed }) ∧
    (∀ k tk, filesA[k]? = some tk → Sheets.skip cfg tk = false →
        CallEv.extractCall k ∈
          (Sheets.processAllFiles cfg extract append regions filesA).calls) := by
  refine ⟨?_, ?_, ?_, ?_⟩
  · intro i tf r hf hsk hex hap
    rw [Sheets.sheetsProcessAllFiles_get cfg extract append regions filesA hr i, hf]
    simp [Sheets.step, hsk, hex, hap, hcfg]
  · intro i tf r msg hf hsk hex hap
    rw [Sheets.sheetsProcessAllFiles_get cfg extract append regions filesA hr i, hf]
    simp [Sheets.step, hsk, hex, hap, hcfg]
  · intro j tg r hf hne hex hper
    rw [Firestore.fsProcessAllFiles_get extract fetchOracle regions filesE hr j, hf]
    simp [Firestore.step, hne, hex, hper]
  · intro k tk hf hsk
    rw [Sheets.sheetsProcessAllFiles_trace cfg extract append regions filesA hr]
    refine List.mem_flatMap.mpr
      ⟨k, List.mem_range.mpr (List.getElem?_eq_some.mp hf).1, ?_⟩
    rw [hf]
    simp only [Option.map_some', Option.getD_some]
    exact Sheets.sheetsStep_trace_extract_mem cfg extract append tk k hsk

/-- Witness for C4: concrete persistence failures in both variants. -/
theorem c4_sync_failure_isolated_witness :
    ((Sheets.processAllFiles ⟨true, "sid", "tok"⟩ (fun _ => Except.ok [("N", "v")])
        (fun _ => Except.ok false) [⟨"r1", "N", 0, 0, 10, 10⟩]
        [{ id := "a", status := FileStatus.pending,
           sheetSyncStatus := SheetSyncStatus.pending, extractedData := none,
           error := none }]).files)[0]? =
      some { id := "a", status := FileStatus.completed,
             sheetSyncStatus := SheetSyncStatus.failed, extractedData := some [("N", "v")],
             error := none } ∧
    ((Firestore.processAllFiles (fun _ => Except.ok [("N", "v")])
        (fun _ => Except.error "offline") [⟨"r1", "N", 0, 0, 10, 10⟩]
        [{ id := "e", status := FileStatus.pending, syncStatus := SyncStatus.unsynced,
           extractedData := none, error := none }]).files)[0]? =
      some { id := "e", status := FileStatus.completed, syncStatus := SyncStatus.failed,
             extractedData := some [("N", "v")], error := none } := by
  have h1 := c4_sync_failure_isolated ⟨true, "sid", "tok"⟩
    (fun _ => Except.ok [("N", "v")]) (fun _ => Except.ok false)
    (fun _ => Except.error "offline") [⟨"r1", "N", 0, 0, 10, 10⟩]
    [{ id := "a", status := FileStatus.pending,
       sheetSyncStatus := SheetSyncStatus.pending, extractedData := none, error := none }]
    [{ id := "e", status := FileStatus.pending, syncStatus := SyncStatus.unsynced,
       extractedData := none, error := none }]
    (by decide) (by decide)
  exact ⟨h1.1 0 _ [("N", "v")] rfl (by decide) rfl rfl,
    h1.2.2.1 0 _ [("N", "v")] rfl (by decide) rfl rfl⟩

/-- C6 counterexample: `removeFile` of `src/App.tsx` has no busy guard —
calling it on a file whose status is `processing` deletes the entry, so
the File Queue shrinks instead of staying unchanged. -/
theorem c6_counterexample :
    Sheets.removeFile "a"
        [{ id := "a", status := FileStatus.processing,
           sheetSyncStatus := SheetSyncStatus.pending, extractedData := none,
           error := none }] = [] ∧
    (Sheets.removeFile "a"
        [{ id := "a", status := FileStatus.processing,
           sheetSyncStatus := SheetSyncStatus.pending, extractedData := none,
           error := none }]).length ≠ 1 := by
  constructor
  · decide
  · decide

/-- C6 amended: the silent busy guard exists in the Firestore variant:
there, `removeFile` on a file whose status is `processing` leaves the
queue unchanged in length and state and raises no error; `removeFile`
of `src/App.tsx` is an unconditional filter with no such guard. -/
theorem c6_remove_processing_guard (id : String) (files : List EntFile) (f : EntFile)
    (hfind : files.find? (fun g => decide (g.id = id)) = some f)
    (hst : f.status = FileStatus.processing) :
    Firestore.removeFile id files = files := by
  unfold Firestore.removeFile
  rw [hfind]
  simp [hst]

/-- Witness for C6: the guard at a concrete processing entry. -/
theorem c6_remove_processing_guard_witness :
    Firestore.removeFile "a"
        [{ id := "a", status := FileStatus.processing, syncStatus := SyncStatus.unsynced,
           extractedData := none, error := none }] =
      [{ id := "a", status := FileStatus.processing, syncStatus := SyncStatus.unsynced,
         extractedData := none, error := none }] :=
  c6_remove_processing_guard "a"
    [{ id := "a", status := FileStatus.processing, syncStatus := SyncStatus.unsynced,
       extractedData := none, error := none }]
    { id := "a", status := FileStatus.processing, syncStatus := SyncStatus.unsynced,
      extractedData := none, error := none }
    (by decide) rfl

/-- C9 counterexample: the auto-generated name is `Field (count+1)`, not
the next unused ordinal.  Commit two regions (`Field 1`, `Field 2`),
delete the first, then commit a third drag: the registry has one region
named `Field 2` and length 1, so the new region is also named `Field 2`
— the freshly generated name equals the name of an existing region. -/
theorem c9_counterexample :
    ((Canvas.handleMouseUp "c" ⟨true, some ⟨40, 40⟩, some ⟨50, 50⟩⟩
        (Canvas.deleteRegion "a"
          ((Canvas.handleMouseUp "b" ⟨true, some ⟨20, 20⟩, some ⟨30, 30⟩⟩
            ((Canvas.handleMouseUp "a" ⟨true, some ⟨0, 0⟩, some ⟨10, 10⟩⟩ [] none).2.1)
            none).2.1)
          none).1
        none).2.1).map Region.name = ["Field 2", "Field 2"] ∧
    ¬ (["Field 2", "Field 2"] : List String).Nodup := by
  constructor
  · norm_num [Canvas.handleMouseUp, Canvas.deleteRegion, Canvas.autoName, jsAbs, jsMin]
    decide
  · decide

/-- C9 amended: every region created by the drag commit receives the
auto-generated name `Field N` where `N` is one more than the number of
regions currently in the registry (`regions.length + 1`), and it is
marked as the active selection.  This `N` is the next unused ordinal
only while the registry holds exactly the regions `Field 1 ... Field
count`; after a deletion the generated name can collide with an existing
one, so names are not guaranteed unique. -/
theorem c9_autoname (newId : String) (s e : Point) (regions : List Region)
    (active : Option String) (hw : 1 < |e.x - s.x|) (hh : 1 < |e.y - s.y|) :
    (Canvas.handleMouseUp newId ⟨true, some s, some e⟩ regions active).2.1 =
      regions ++ [{ id := newId
                    name := Canvas.autoName (regions.length + 1)
                    x := min s.x e.x
                    y := min s.y e.y
                    width := |e.x - s.x|
                    height := |e.y - s.y| }] ∧
    (Canvas.handleMouseUp newId ⟨true, some s, some e⟩ regions active).2.2 =
      some newId := by
  unfold Canvas.handleMouseUp
  simp only [jsAbs_eq_abs, jsMin_eq_min]
  simp [hw, hh]

/-- Witness for C9 at a concrete big drag on the empty registry. -/
theorem c9_autoname_witness :
    (1 : ℚ) < |(10 : ℚ) - 0| ∧
    (Canvas.handleMouseUp "a" ⟨true, some ⟨0, 0⟩, some ⟨10, 10⟩⟩ [] none).2.1 =
      [{ id := "a", name := Canvas.autoName 1, x := min (0 : ℚ) 10, y := min (0 : ℚ) 10,
         width := |(10 : ℚ) - 0|, height := |(10 : ℚ) - 0| }] := by
  refine ⟨by norm_num, ?_⟩
  have h := (c9_autoname "a" ⟨0, 0⟩ ⟨10, 10⟩ [] none (by norm_num) (by norm_num)).1
  simpa using h

/-- The one-directional data invariant: every completed file carries
extracted data. -/
def completedHasData (files : List AppFile) : Prop :=
  ∀ f ∈ files, f.status = FileStatus.completed → f.extractedData.isSome = true

theorem Sheets.step_preserves_completedData (cfg : SheetsConfig)
    (extract : Nat → Except String OCRResult) (append : Nat → Except String Bool)
    (tf : AppFile) (i : Nat)
    (h : tf.status = FileStatus.completed → tf.extractedData.isSome = true) :
    (Sheets.step cfg extract append tf i).1.status = FileStatus.completed →
      (Sheets.step cfg extract append tf i).1.extractedData.isSome = true := by
  unfold Sheets.step
  by_cases hsk : Sheets.skip cfg tf
  · simp only [hsk, if_pos]
    exact h
  · rw [Bool.not_eq_true] at hsk
    rw [hsk]
    simp only [Bool.false_eq_true, if_false]
    cases extract i with
    | error e => intro hc; cases hc
    | ok result =>
      by_cases hcfg : Sheets.sheetConfigured cfg
      · simp only [hcfg, if_pos]
        cases append i with
        | ok success => intro _; rfl
        | error e => intro hc; cases hc
      · rw [Bool.not_eq_true] at hcfg
        rw [hcfg]
        simp only [Bool.false_eq_true, if_false]
        intro _
        rfl

/-- C3 counterexample: a state reachable through upload and two batch
runs in which a file has `extractedData` present while its status is
`error`, refuting the claimed iff.  Upload one file; run once with a
successful extraction and a failing sheets append (file becomes
completed/failed with data); run again with the extraction now throwing:
the skip rule re-processes the file, the catch sets `status = error`,
and the stale `extractedData` is retained. -/
theorem c3_counterexample :
    (Sheets.processAllFiles ⟨true, "sid", "tok"⟩ (fun _ => Except.error "boom")
        (fun _ => Except.ok true) [⟨"r1", "N", 0, 0, 10, 10⟩]
        ((Sheets.processAllFiles ⟨true, "sid", "tok"⟩ (fun _ => Except.ok [("N", "1")])
            (fun _ => Except.ok false) [⟨"r1", "N", 0, 0, 10, 10⟩]
            (Sheets.handleFileUpload [] ["a"])).files)).files =
      [{ id := "a", status := FileStatus.error,
         sheetSyncStatus := SheetSyncStatus.failed, extractedData := some [("N", "1")],
         error := none }] ∧
    FileStatus.error ≠ FileStatus.completed := by
  constructor
  · decide
  · decide

/-- C3 amended: one direction of the claimed invariant holds and is
preserved by every public operation: a completed file always has
`extractedData` present, and (under the extraction-collaborator contract
that results cover every supplied region name) any file a run completes
carries an entry for every region name in the registry at that run.  The
converse direction is false: re-processing a completed-but-unsynced file
can leave stale `extractedData` on a file whose status is `processing`
or `error` (see the counterexample). -/
theorem c3_completed_data_invariant (cfg : SheetsConfig)
    (extract : Nat → Except String OCRResult) (append : Nat → Except String Bool)
    (regions : List Region) (files : List AppFile) (ids : List String) (rid : String)
    (hextract : ∀ k r, extract k = Except.ok r → ∀ g ∈ regions, g.name ∈ resultKeys r)
    (hinv : completedHasData files) :
    completedHasData (Sheets.handleFileUpload files ids) ∧
    completedHasData (Sheets.removeFile rid files) ∧
    completedHasData ((Sheets.processAllFiles cfg extract append regions files).files) ∧
    (∀ (i : Nat) (tf : AppFile), files[i]? = some tf →
      Sheets.skip cfg tf = false → regions.length ≠ 0 →
      ∀ tf2 : AppFile,
        ((Sheets.processAllFiles cfg extract append regions files).files)[i]? =
          some tf2 →
        tf2.status = FileStatus.completed →
        ∃ r, tf2.extractedData = some r ∧ ∀ g ∈ regions, g.name ∈ resultKeys r) := by
  refine ⟨?_, ?_, ?_, ?_⟩
  · intro f hf hc
    rcases List.mem_append.mp hf with hl | hr
    · exact hinv f hl hc
    · obtain ⟨id, _, rfl⟩ := List.mem_map.mp hr
      cases hc
  · intro f hf hc
    exact hinv f (List.mem_filter.mp hf).1 hc
  · by_cases hr : regions.length = 0
    · unfold Sheets.processAllFiles
      rw [if_pos hr]
      exact hinv
    · intro f hf hc
      obtain ⟨j, hj⟩ := List.getElem?_of_mem hf
      rw [Sheets.sheetsProcessAllFiles_get cfg extract append regions files hr j] at hj
      cases hfj : files[j]? with
      | none =>
        rw [hfj] at hj
        cases hj
      | some tf0 =>
        rw [hfj] at hj
        simp only [Option.map_some', Option.some.injEq] at hj
        subst hj
        exact Sheets.step_preserves_completedData cfg extract append tf0 j
          (hinv tf0 (List.getElem?_mem hfj)) hc
  · intro i tf hf hsk hr tf2 hf2 hc
    rw [Sheets.sheetsProcessAllFiles_get cfg extract append regions files hr i, hf] at hf2
    simp only [Option.map_some', Option.some.injEq] at hf2
    subst hf2
    revert hc
    unfold Sheets.step
    rw [hsk]
    simp only [Bool.false_eq_true, if_false]
    cases hex : extract i with
    | error e => intro hc; cases hc
    | ok result =>
      have hnames := hextract i result hex
      by_cases hcfg : Sheets.sheetConfigured cfg
      · simp only [hcfg, if_pos]
        cases append i with
        | ok success => intro _; exact ⟨result, rfl, hnames⟩
        | error e => intro hc; cases hc
      · rw [Bool.not_eq_true] at hcfg
        rw [hcfg]
        simp only [Bool.false_eq_true, if_false]
        intro _
        exact ⟨result, rfl, hnames⟩

/-- Witness for C3: a pending upload processed with a contract-abiding
extraction oracle yields a queue in which every completed file has
data. -/
theorem c3_completed_data_invariant_witness :
    completedHasData ((Sheets.processAllFiles ⟨false, "", ""⟩
        (fun _ => Except.ok [("N", "1")]) (fun _ => Except.ok true)
        [⟨"r1", "N", 0, 0, 10, 10⟩]
        [{ id := "a", status := FileStatus.pending,
           sheetSyncStatus := SheetSyncStatus.pending, extractedData := none,
           error := none }]).files) := by
  have h := c3_completed_data_invariant ⟨false, "", ""⟩
    (fun _ => Except.ok [("N", "1")]) (fun _ => Except.ok true)
    [⟨"r1", "N", 0, 0, 10, 10⟩]
    [{ id := "a", status := FileStatus.pending,
       sheetSyncStatus := SheetSyncStatus.pending, extractedData := none,
       error := none }]
    ["b"] "x"
    (by
      intro k r hkr g hg
      have hr2 : [("N", "1")] = r := Except.ok.inj hkr
      subst hr2
      rw [List.mem_singleton] at hg
      subst hg
      decide)
    (by
      intro f hf hc
      rw [List.mem_singleton] at hf
      subst hf
      cases hc)
  exact h.2.2.1

end ScanFlow
